import Mathlib

/-!
Verification development for the asf_noise_consultation repository,
notebook: Building UPRN spacing.

The notebook's algorithmic core consists of three pieces:
- an adjacency builder over output-area polygons (source lines 112-120),
- a point-in-polygon spatial join used to tag points with polygon codes
  (dask_geopandas.sjoin with predicate within, source lines 60-84 and 136-157),
- a per-area nearest-neighbour loop using a k-d tree with k = 2 queries
  (source lines 185-198).

We embed these as executable Lean functions.  Geometry predicates
(shapely disjoint and within) are abstract boolean primitives, since the
source delegates them to a geometry library; a concrete axis-aligned box
geometry is provided for concrete instances.  Coordinates are rationals;
the distance function of the k-d tree is kept as a parameter so that both
the exact squared Euclidean distance (for computation) and the real
Euclidean distance (for statements about actual distances) instantiate
the same embedding.  The scipy query with k = 2 returns, for each query
point, the two smallest distances from the query point to tree points,
reporting missing neighbours as infinity; numpy.mean of an empty array
is NaN and of an array holding infinity is infinity.  We model the
per-unit statistic accordingly with an explicit three-valued result.
-/

/-- A 2D planar point: easting and northing coordinates. -/
structure Pt where
  x : ℚ
  y : ℚ
deriving DecidableEq, Repr

/-- A point row of the uprn_oa2011 frame: identifier, coordinates and the
2011 output-area code it was assigned to. -/
structure TPt where
  uprn : ℕ
  pt : Pt
  oa : String
deriving DecidableEq, Repr

/-- A point row of the uprn frame before tagging: identifier and coordinates. -/
structure UPt where
  uprn : ℕ
  pt : Pt
deriving DecidableEq, Repr

/-- Squared Euclidean distance between two points, exact over ℚ. -/
def sqDist (p q : Pt) : ℚ :=
  (p.x - q.x) * (p.x - q.x) + (p.y - q.y) * (p.y - q.y)

/-- Euclidean distance between two points, as a real number.  This is the
metric the cKDTree of the source queries. -/
noncomputable def euclid (p q : Pt) : ℝ :=
  Real.sqrt (((p.x : ℝ) - q.x) * ((p.x : ℝ) - q.x) + ((p.y : ℝ) - q.y) * ((p.y : ℝ) - q.y))

/-- Minimum of a list, none on the empty list. -/
def minList [LinearOrder α] : List α → Option α
  | [] => none
  | x :: xs =>
    match minList xs with
    | none => some x
    | some m => some (min x m)

/-- Second smallest element of a list of distances, with multiplicity: the
minimum after one occurrence of the minimum has been removed.  This is the
distance at index 1 of a sorted-ascending k = 2 nearest neighbour query
over the list: scipy sorts the distances and reports a missing second
neighbour (fewer than two tree points) as infinity, which we model as
none. -/
def queryNN [LinearOrder α] [DecidableEq α] (dists : List α) : Option α :=
  match minList dists with
  | none => none
  | some m => minList (dists.erase m)

/-- Result of the per-unit mean: NaN (empty candidate set), infinity
(some queried distance was infinite), or a finite value. -/
inductive MeanNN (α : Type _) where
  | nan : MeanNN α
  | inf : MeanNN α
  | val : α → MeanNN α
deriving DecidableEq, Repr

/-- Mean of a list of query results, with numpy float semantics: the mean
of an empty array is NaN, the mean of an array holding an infinite entry
is infinity, otherwise the sum divided by the length. -/
def meanDists [LinearOrderedField α] (xs : List (Option α)) : MeanNN α :=
  if xs = [] then MeanNN.nan
  else if xs.any (fun o => o.isNone) then MeanNN.inf
  else MeanNN.val ((xs.filterMap id).sum / xs.length)

/-- Statistic computed by one iteration of the oa_nn loop (source lines
186-196) for candidate unit cand with neighbourhood code list oas: filter
the candidate rows and the neighbourhood rows, build the tree over the
neighbourhood rows, query each candidate row for its two nearest tree
points, keep the second distance, and take the mean. -/
def oaStat [LinearOrderedField α] (d : Pt → Pt → α)
    (pts : List TPt) (cand : String) (oas : List String) : MeanNN α :=
  let uprns := pts.filter (fun p => decide (p.oa = cand))
  let test := pts.filter (fun p => decide (p.oa ∈ oas))
  meanDists (uprns.map (fun u => queryNN (test.map (fun t => d u.pt t.pt))))

/-- The oa_nn loop (source lines 185-198): iterate over the adjacency map
entries and record the statistic for every candidate unit. -/
def oa_nn [LinearOrderedField α] (d : Pt → Pt → α)
    (nbrs : List (String × List String)) (pts : List TPt) :
    List (String × MeanNN α) :=
  nbrs.map (fun e => (e.1, oaStat d pts e.1 e.2))

/-- The adjacency builder (source lines 112-120): for each row of the
polygon frame, the codes of all rows whose geometry is not disjoint from
the candidate geometry.  The geometry type and the disjoint predicate of
the geometry library are parameters. -/
def neighbours (disj : G → G → Bool) (rows : List (String × G)) :
    List (String × List String) :=
  rows.map (fun r => (r.1, (rows.filter (fun o => !disj o.2 r.2)).map (fun o => o.1)))

/-- The point-in-polygon spatial join (dask_geopandas.sjoin, how inner,
predicate within; source lines 73-77 and 148-152): every left point row is
paired with the code of every polygon row that contains it; points in no
polygon produce no output row. -/
def sjoin (within : Pt → G → Bool) (pts : List UPt) (polys : List (String × G)) :
    List (UPt × String) :=
  pts.flatMap (fun p => (polys.filter (fun q => within p.pt q.2)).map (fun q => (p, q.1)))

/-- Axis-aligned box geometry, used for concrete synthetic instances
(grids of adjoining squares). -/
structure Box where
  x0 : ℚ
  x1 : ℚ
  y0 : ℚ
  y1 : ℚ
deriving DecidableEq, Repr

/-- Shapely within for a point and a box: the point lies in the interior. -/
def Box.containsPt (b : Box) (p : Pt) : Bool :=
  decide (b.x0 < p.x ∧ p.x < b.x1 ∧ b.y0 < p.y ∧ p.y < b.y1)

/-- Shapely disjoint for two closed boxes: they share no point, i.e. they
are separated along one of the axes.  Boxes touching along an edge are
not disjoint. -/
def Box.disjointB (a b : Box) : Bool :=
  decide (a.x1 < b.x0 ∨ b.x1 < a.x0 ∨ a.y1 < b.y0 ∨ b.y1 < a.y0)

/-- Spec-side description of the per-point query, following the spec
wording of section 4.1: the distance from a point to its nearest other
point (self-pairing excluded, so one occurrence of the row itself is
removed) among the neighbourhood rows; none when no other point exists. -/
def specNN [LinearOrderedField α] (d : Pt → Pt → α) (u : TPt) (test : List TPt) :
    Option α :=
  minList ((test.erase u).map (fun t => d u.pt t.pt))

/-- Spec-side description of the per-unit statistic, following the spec
wording of section 4.1: the mean, over the points of the candidate unit,
of the distance to the nearest other point among all points assigned to
codes in the neighbourhood set. -/
def specMeanNN [LinearOrderedField α] (d : Pt → Pt → α)
    (pts : List TPt) (cand : String) (oas : List String) : MeanNN α :=
  let uprns := pts.filter (fun p => decide (p.oa = cand))
  let test := pts.filter (fun p => decide (p.oa ∈ oas))
  meanDists (uprns.map (fun u => specNN d u test))

/-- Point-in-box containment with the argument order the spatial join
expects. -/
def boxWithin (p : Pt) (b : Box) : Bool :=
  b.containsPt p

/-- End-to-end scenario of the spec, section 8: three equal squares in a
row sharing edges (side 2, so that interior points have integer
coordinates). -/
def gridEE : List (String × Box) :=
  [("A", ⟨0, 2, 0, 2⟩), ("B", ⟨2, 4, 0, 2⟩), ("C", ⟨4, 6, 0, 2⟩)]

/-- End-to-end scenario of the spec, section 8: one point at a known
coordinate inside each of the three squares. -/
def ptsEE : List UPt :=
  [⟨1, ⟨1, 1⟩⟩, ⟨2, ⟨3, 1⟩⟩, ⟨3, ⟨5, 1⟩⟩]

/-- End-to-end scenario: the points tagged with their containing square
via the point-in-polygon join, as in the uprn_oa2011 construction of the
source (lines 148-152). -/
def taggedEE : List TPt :=
  (sjoin boxWithin ptsEE gridEE).map (fun e => ⟨e.1.uprn, e.1.pt, e.2⟩)

/-! ### Lemmas about list minima and the k = 2 query -/

theorem minList_eq_none_iff [LinearOrder α] {xs : List α} :
    minList xs = none ↔ xs = [] := by
  cases xs with
  | nil => simp [minList]
  | cons x xs => cases h : minList xs <;> simp [minList, h]

theorem minList_mem_le [LinearOrder α] {xs : List α} {m : α}
    (h : minList xs = some m) : m ∈ xs ∧ ∀ x ∈ xs, m ≤ x := by
  induction xs generalizing m with
  | nil => simp [minList] at h
  | cons x xs ih =>
    cases hx : minList xs with
    | none =>
      have hnil : xs = [] := minList_eq_none_iff.mp hx
      subst hnil
      simp [minList] at h
      subst h
      simp
    | some m2 =>
      rw [minList, hx] at h
      simp only [Option.some.injEq] at h
      obtain ⟨hm2, hle⟩ := ih hx
      subst h
      refine ⟨?_, ?_⟩
      · rcases min_cases x m2 with ⟨he, _⟩ | ⟨he, _⟩
        · rw [he]; exact List.mem_cons_self x xs
        · rw [he]; exact List.mem_cons_of_mem x hm2
      · intro y hy
        rcases List.mem_cons.mp hy with rfl | hy
        · exact min_le_left _ _
        · exact le_trans (min_le_right _ _) (hle y hy)

theorem minList_eq_some_iff [LinearOrder α] {xs : List α} {m : α} :
    minList xs = some m ↔ m ∈ xs ∧ ∀ x ∈ xs, m ≤ x := by
  constructor
  · exact minList_mem_le
  · rintro ⟨hm, hle⟩
    cases h : minList xs with
    | none =>
      rw [minList_eq_none_iff.mp h] at hm
      simp at hm
    | some m2 =>
      obtain ⟨hm2, hle2⟩ := minList_mem_le h
      have : m = m2 := le_antisymm (hle m2 hm2) (hle2 m hm)
      rw [this]

theorem minList_perm [LinearOrder α] {xs ys : List α} (h : xs.Perm ys) :
    minList xs = minList ys := by
  cases hx : minList xs with
  | none =>
    rw [minList_eq_none_iff.mp hx] at h
    rw [minList_eq_none_iff.mpr h.nil_eq.symm]
  | some m =>
    obtain ⟨hm, hle⟩ := minList_mem_le hx
    exact (minList_eq_some_iff.mpr
      ⟨h.mem_iff.mp hm, fun x hx2 => hle x (h.mem_iff.mpr hx2)⟩).symm

theorem map_erase_perm [DecidableEq α] [DecidableEq β] (f : β → α)
    {u : β} {l : List β} (hu : u ∈ l) :
    ((l.map f).erase (f u)).Perm ((l.erase u).map f) := by
  have h1 : (l.map f).Perm (f u :: (l.erase u).map f) :=
    ((List.perm_cons_erase hu).map f)
  have h2 := h1.erase (f u)
  rw [List.erase_cons_head] at h2
  exact h2

theorem queryNN_perm [LinearOrder α] [DecidableEq α] {xs ys : List α}
    (h : xs.Perm ys) : queryNN xs = queryNN ys := by
  rw [queryNN, queryNN, minList_perm h]
  cases minList ys with
  | none => rfl
  | some m => exact minList_perm (h.erase m)

theorem queryNN_eq_none_iff [LinearOrder α] [DecidableEq α] {xs : List α} :
    queryNN xs = none ↔ xs.length ≤ 1 := by
  cases hx : minList xs with
  | none =>
    rw [queryNN, hx]
    simp [minList_eq_none_iff.mp hx]
  | some m =>
    obtain ⟨hm, _⟩ := minList_mem_le hx
    rw [queryNN, hx]
    simp only [minList_eq_none_iff]
    constructor
    · intro h
      have := List.length_erase_of_mem hm
      rw [h] at this
      simp at this
      omega
    · intro h
      have h1 : 1 ≤ xs.length := List.length_pos.mpr (List.ne_nil_of_mem hm)
      have h2 : xs.length = 1 := le_antisymm h h1
      have := List.length_erase_of_mem hm
      rw [h2] at this
      exact List.length_eq_zero.mp this

theorem queryNN_self_mem [LinearOrderedField α] [DecidableEq β] {f : β → α}
    {u : β} {l : List β} (hu : u ∈ l) (h0 : f u = 0)
    (hnn : ∀ x ∈ l, 0 ≤ f x) :
    queryNN (l.map f) = minList ((l.erase u).map f) := by
  have hmin : minList (l.map f) = some 0 := by
    refine minList_eq_some_iff.mpr ⟨?_, ?_⟩
    · exact h0 ▸ List.mem_map_of_mem f hu
    · intro y hy
      obtain ⟨x, hx, rfl⟩ := List.mem_map.mp hy
      exact hnn x hx
  rw [queryNN, hmin, ← h0]
  exact minList_perm (map_erase_perm f hu)

/-! ### Lemmas about the mean of query results -/

theorem meanDists_eq_nan_iff [LinearOrderedField α] {xs : List (Option α)} :
    meanDists xs = MeanNN.nan ↔ xs = [] := by
  rw [meanDists]
  split
  · simp [*]
  · split <;> simp [*]

theorem meanDists_eq_inf_iff [LinearOrderedField α] {xs : List (Option α)} :
    meanDists xs = MeanNN.inf ↔ xs ≠ [] ∧ xs.any (fun o => o.isNone) = true := by
  rw [meanDists]
  split
  · simp [*]
  · split <;> simp [*]

/-! ### Facts about the concrete distance functions -/

theorem sqDist_self (p : Pt) : sqDist p p = 0 := by
  simp [sqDist]

theorem sqDist_nonneg (p q : Pt) : 0 ≤ sqDist p q :=
  add_nonneg (mul_self_nonneg _) (mul_self_nonneg _)

theorem euclid_self (p : Pt) : euclid p p = 0 := by
  simp [euclid]

theorem euclid_nonneg (p q : Pt) : 0 ≤ euclid p q :=
  Real.sqrt_nonneg _

theorem Box.disjointB_symm (g h : Box) : Box.disjointB g h = Box.disjointB h g := by
  simp only [Box.disjointB]
  apply decide_eq_decide.mpr
  tauto

/-! ### Claim theorems -/

/-- C2 counterexample: for a unit with a single assigned point (and an
adjacency entry holding only the unit itself) the claim says the loop
records a null result, but it records infinity: scipy reports the missing
second neighbour as an infinite distance and the mean of one infinite
entry is infinity, not NaN. -/
theorem oaStat_single_point_not_null :
    oaStat sqDist [⟨1, ⟨0, 0⟩, "A"⟩] "A" ["A"] = MeanNN.inf ∧
    oaStat sqDist [⟨1, ⟨0, 0⟩, "A"⟩] "A" ["A"] ≠ MeanNN.nan := by
  have hs : sqDist ⟨0, 0⟩ ⟨0, 0⟩ = 0 := sqDist_self _
  have h : oaStat sqDist [⟨1, ⟨0, 0⟩, "A"⟩] "A" ["A"] = MeanNN.inf := by
    simp only [oaStat]
    rw [show List.filter (fun p => decide (p.oa = "A")) [(⟨1, ⟨0, 0⟩, "A"⟩ : TPt)]
        = [⟨1, ⟨0, 0⟩, "A"⟩] from by decide]
    rw [show List.filter (fun p => decide (p.oa ∈ ["A"])) [(⟨1, ⟨0, 0⟩, "A"⟩ : TPt)]
        = [⟨1, ⟨0, 0⟩, "A"⟩] from by decide]
    simp only [List.map, hs]
    decide
  exact ⟨h, by rw [h]; decide⟩

/-- C2 (amended): the per-unit result is null (NaN) exactly when the
candidate-unit point set is empty; when the candidate-unit point set is
nonempty, the result is infinite exactly when the neighbourhood point set
has fewer than two entries.  In particular a unit with a single assigned
point gets a null result only when no point at all is assigned to it
after filtering; with one assigned point and no other neighbourhood point
the recorded value is infinity. -/
theorem oaStat_null_charact [LinearOrderedField α] (d : Pt → Pt → α)
    (pts : List TPt) (cand : String) (oas : List String) :
    (oaStat d pts cand oas = MeanNN.nan ↔
      pts.filter (fun p => decide (p.oa = cand)) = []) ∧
    (pts.filter (fun p => decide (p.oa = cand)) ≠ [] →
      (oaStat d pts cand oas = MeanNN.inf ↔
        (pts.filter (fun p => decide (p.oa ∈ oas))).length < 2)) := by
  constructor
  · simp only [oaStat]
    rw [meanDists_eq_nan_iff, List.map_eq_nil_iff]
  · intro hne
    simp only [oaStat]
    rw [meanDists_eq_inf_iff]
    constructor
    · rintro ⟨-, hany⟩
      obtain ⟨y, hy, hyn⟩ := List.any_eq_true.mp hany
      obtain ⟨u, _, rfl⟩ := List.mem_map.mp hy
      have hnone : queryNN ((pts.filter (fun p => decide (p.oa ∈ oas))).map
          (fun t => d u.pt t.pt)) = none := Option.isNone_iff_eq_none.mp hyn
      have := queryNN_eq_none_iff.mp hnone
      rw [List.length_map] at this
      omega
    · intro hlen
      refine ⟨by simpa using hne, ?_⟩
      obtain ⟨u, hu⟩ := List.exists_mem_of_ne_nil _ hne
      refine List.any_eq_true.mpr ⟨_, List.mem_map_of_mem _ hu, ?_⟩
      apply Option.isNone_iff_eq_none.mpr
      apply queryNN_eq_none_iff.mpr
      rw [List.length_map]
      omega

/-- C2 witness: a unit with one assigned point and an empty neighbourhood
list records infinity. -/
theorem oaStat_null_charact_witness :
    oaStat sqDist [⟨2, ⟨5, 5⟩, "B"⟩] "B" [] = MeanNN.inf :=
  ((oaStat_null_charact sqDist [⟨2, ⟨5, 5⟩, "B"⟩] "B" []).2 (by decide)).mpr
    (by decide)

/-- C10: the output of the oa_nn loop has exactly one entry, in order, for
every key of the input adjacency map; units with a null or degenerate
statistic are still recorded. -/
theorem oa_nn_total_keys [LinearOrderedField α] (d : Pt → Pt → α)
    (nbrs : List (String × List String)) (pts : List TPt) :
    (oa_nn d nbrs pts).map Prod.fst = nbrs.map Prod.fst := by
  rw [oa_nn, List.map_map]
  exact List.map_congr_left fun e _ => rfl

/-- C5: every unit's own code appears in its own neighbour set, because a
polygon geometry is not disjoint from itself. -/
theorem neighbours_self_mem (disj : G → G → Bool) (rows : List (String × G))
    (hrefl : ∀ r ∈ rows, disj r.2 r.2 = false)
    {c : String} {l : List String} (h : (c, l) ∈ neighbours disj rows) :
    c ∈ l := by
  rw [neighbours] at h
  obtain ⟨r, hr, he⟩ := List.mem_map.mp h
  injection he with h1 h2
  subst h1
  subst h2
  refine List.mem_map.mpr ⟨r, List.mem_filter.mpr ⟨hr, ?_⟩, rfl⟩
  rw [hrefl r hr]
  rfl

/-- C5 witness: in the three-square grid the entry for square A holds the
code A itself. -/
theorem neighbours_self_mem_witness : "A" ∈ ["A", "B"] :=
  neighbours_self_mem Box.disjointB gridEE (by decide) (by decide)

/-- C4: the adjacency relation is symmetric: with unique unit codes and a
symmetric disjointness primitive, code a lies in the neighbour set of unit
b if and only if code b lies in the neighbour set of unit a. -/
theorem neighbours_symm (disj : G → G → Bool) (rows : List (String × G))
    (hnodup : (rows.map Prod.fst).Nodup)
    (hsymm : ∀ g h, disj g h = disj h g)
    {a b : String} {la lb : List String}
    (ha : (a, la) ∈ neighbours disj rows) (hb : (b, lb) ∈ neighbours disj rows) :
    (a ∈ lb ↔ b ∈ la) := by
  rw [neighbours] at ha hb
  obtain ⟨ra, hra, hea⟩ := List.mem_map.mp ha
  obtain ⟨rb, hrb, heb⟩ := List.mem_map.mp hb
  injection hea with ha1 ha2
  injection heb with hb1 hb2
  subst ha1
  subst ha2
  subst hb1
  subst hb2
  have key : ∀ r s : String × G, r ∈ rows → s ∈ rows →
      (r.1 ∈ (rows.filter (fun o => !disj o.2 s.2)).map Prod.fst ↔
        disj r.2 s.2 = false) := by
    intro r s hr hs
    constructor
    · intro hm
      obtain ⟨o, ho, hoe⟩ := List.mem_map.mp hm
      obtain ⟨ho1, ho2⟩ := List.mem_filter.mp ho
      have : o = r := List.inj_on_of_nodup_map hnodup ho1 hr hoe
      subst this
      simpa using ho2
    · intro hd
      refine List.mem_map.mpr ⟨r, List.mem_filter.mpr ⟨hr, ?_⟩, rfl⟩
      rw [hd]
      rfl
  rw [key ra rb hra hrb, key rb ra hrb hra, hsymm]

/-- C4 witness: in the three-square grid, A lies in the neighbour set of B
if and only if B lies in the neighbour set of A. -/
theorem neighbours_symm_witness : ("A" ∈ ["A", "B", "C"] ↔ "B" ∈ ["A", "B"]) :=
  neighbours_symm Box.disjointB gridEE (by decide) Box.disjointB_symm
    (by decide) (by decide)

/-- C6: when the neighbourhood point set of a unit consists of exactly two
coincident rows at the same coordinate, the k = 2 query the loop performs
for either of those rows returns 0 as the nearest-neighbour distance. -/
theorem queryNN_coincident [LinearOrderedField α] (d : Pt → Pt → α)
    (hrefl : ∀ p, d p p = 0)
    (pts : List TPt) (oas : List String) (t1 t2 u : TPt)
    (htest : pts.filter (fun p => decide (p.oa ∈ oas)) = [t1, t2])
    (hco : t1.pt = t2.pt) (hu : u = t1 ∨ u = t2) :
    queryNN ((pts.filter (fun p => decide (p.oa ∈ oas))).map
      (fun t => d u.pt t.pt)) = some 0 := by
  rw [htest]
  have h1 : d u.pt t1.pt = 0 := by
    rcases hu with rfl | rfl
    · exact hrefl _
    · rw [← hco]
      exact hrefl _
  have h2 : d u.pt t2.pt = 0 := by
    rcases hu with rfl | rfl
    · rw [hco]
      exact hrefl _
    · exact hrefl _
  simp [queryNN, minList, h1, h2]

/-- C6 witness: two coincident points at the origin, both assigned to the
same unit; querying the first of them with the squared Euclidean distance
returns 0. -/
theorem queryNN_coincident_witness :
    queryNN ((([⟨1, ⟨0, 0⟩, "A"⟩, ⟨2, ⟨0, 0⟩, "A"⟩] : List TPt).filter
      (fun p => decide (p.oa ∈ ["A"]))).map
      (fun t => sqDist (⟨1, ⟨0, 0⟩, "A"⟩ : TPt).pt t.pt)) = some 0 :=
  queryNN_coincident sqDist sqDist_self
    [⟨1, ⟨0, 0⟩, "A"⟩, ⟨2, ⟨0, 0⟩, "A"⟩] ["A"]
    ⟨1, ⟨0, 0⟩, "A"⟩ ⟨2, ⟨0, 0⟩, "A"⟩ ⟨1, ⟨0, 0⟩, "A"⟩
    (by decide) (by decide) (Or.inl rfl)

theorem oaStat_eq_specMeanNN [LinearOrderedField α] (d : Pt → Pt → α)
    (hrefl : ∀ p, d p p = 0) (hnn : ∀ p q, 0 ≤ d p q)
    (pts : List TPt) (cand : String) (oas : List String) (hc : cand ∈ oas) :
    oaStat d pts cand oas = specMeanNN d pts cand oas := by
  simp only [oaStat, specMeanNN]
  congr 1
  apply List.map_congr_left
  intro u hu
  have hu2 : u ∈ pts.filter (fun p => decide (p.oa ∈ oas)) := by
    obtain ⟨hup, he⟩ := List.mem_filter.mp hu
    refine List.mem_filter.mpr ⟨hup, ?_⟩
    have hoa : u.oa = cand := of_decide_eq_true he
    simp [hoa, hc]
  rw [specNN]
  exact queryNN_self_mem hu2 (hrefl _) (fun x _ => hnn _ _)

/-- C1: with every unit's own code contained in its neighbourhood set (the
spec's convention for neighbourhood sets, guaranteed by the adjacency
builder) and a distance function that is zero on the diagonal and
nonnegative (both true of the Euclidean distance the tree uses), the
oa_nn loop returns, for every unit, the mean over the unit's points of
the distance to the nearest other point (self-pairing excluded) among the
points assigned to codes in the unit's neighbourhood set.  Taking the
second-nearest tree point is exactly the nearest other point because the
query point itself sits in the tree at distance zero. -/
theorem oa_nn_eq_spec [LinearOrderedField α] (d : Pt → Pt → α)
    (hrefl : ∀ p, d p p = 0) (hnn : ∀ p q, 0 ≤ d p q)
    (nbrs : List (String × List String)) (pts : List TPt)
    (hself : ∀ e ∈ nbrs, e.1 ∈ e.2) :
    oa_nn d nbrs pts = nbrs.map (fun e => (e.1, specMeanNN d pts e.1 e.2)) := by
  rw [oa_nn]
  apply List.map_congr_left
  intro e he
  rw [oaStat_eq_specMeanNN d hrefl hnn pts e.1 e.2 (hself e he)]

/-- C1 witness: a two-unit instance with the self-inclusive adjacency
entry, evaluated with the squared Euclidean distance. -/
theorem oa_nn_eq_spec_witness :
    oa_nn sqDist [("A", ["A", "B"])] [⟨1, ⟨0, 0⟩, "A"⟩, ⟨2, ⟨3, 4⟩, "B"⟩]
      = [("A", ["A", "B"])].map (fun e =>
          (e.1, specMeanNN sqDist [⟨1, ⟨0, 0⟩, "A"⟩, ⟨2, ⟨3, 4⟩, "B"⟩] e.1 e.2)) :=
  oa_nn_eq_spec sqDist sqDist_self sqDist_nonneg _ _ (by decide)

theorem meanDists_perm [LinearOrderedField α] {xs ys : List (Option α)}
    (h : xs.Perm ys) : meanDists xs = meanDists ys := by
  have hlen := h.length_eq
  have hnil : (xs = []) ↔ (ys = []) := by
    rw [← List.length_eq_zero, ← List.length_eq_zero, hlen]
  have hany : (xs.any (fun o => o.isNone) = true) ↔
      (ys.any (fun o => o.isNone) = true) := by
    rw [List.any_eq_true, List.any_eq_true]
    constructor
    · rintro ⟨x, hx, hxn⟩
      exact ⟨x, h.mem_iff.mp hx, hxn⟩
    · rintro ⟨x, hx, hxn⟩
      exact ⟨x, h.mem_iff.mpr hx, hxn⟩
  have hsum : (xs.filterMap id).sum = (ys.filterMap id).sum :=
    (h.filterMap id).sum_eq
  rw [meanDists, meanDists]
  exact if_congr hnil rfl (if_congr hany rfl (by rw [hsum, hlen]))

/-- C9: locality of the per-unit statistic.  With the unit's own code in
its neighbourhood set (the spec's convention for neighbourhood sets), two
point inputs whose rows assigned to codes in the neighbourhood set agree
as multisets give the unit the same statistic: rows assigned to codes
outside the neighbourhood cannot influence the result. -/
theorem oaStat_local [LinearOrderedField α] (d : Pt → Pt → α)
    (cand : String) (oas : List String) (hc : cand ∈ oas)
    (pts1 pts2 : List TPt)
    (hagree : (pts1.filter (fun p => decide (p.oa ∈ oas))).Perm
      (pts2.filter (fun p => decide (p.oa ∈ oas)))) :
    oaStat d pts1 cand oas = oaStat d pts2 cand oas := by
  have hfil : ∀ pts : List TPt, pts.filter (fun p => decide (p.oa = cand))
      = (pts.filter (fun p => decide (p.oa ∈ oas))).filter
          (fun p => decide (p.oa = cand)) := by
    intro pts
    rw [List.filter_filter]
    apply List.filter_congr
    intro x _
    by_cases h : x.oa = cand
    · simp [h, hc]
    · simp [h]
  have hq : ∀ u : TPt,
      queryNN ((pts1.filter (fun p => decide (p.oa ∈ oas))).map
        (fun t => d u.pt t.pt))
      = queryNN ((pts2.filter (fun p => decide (p.oa ∈ oas))).map
        (fun t => d u.pt t.pt)) :=
    fun u => queryNN_perm (hagree.map _)
  simp only [oaStat]
  rw [hfil pts1, hfil pts2]
  rw [List.map_congr_left (fun u _ => hq u)]
  exact meanDists_perm ((hagree.filter _).map _)

/-- C9 witness: adding a row assigned to a code outside the neighbourhood
set leaves the statistic of the unit unchanged. -/
theorem oaStat_local_witness :
    oaStat sqDist [⟨1, ⟨0, 0⟩, "A"⟩, ⟨9, ⟨7, 7⟩, "Z"⟩] "A" ["A"]
      = oaStat sqDist [⟨1, ⟨0, 0⟩, "A"⟩] "A" ["A"] :=
  oaStat_local sqDist "A" ["A"] (by decide) _ _
    (by rw [show ([⟨1, ⟨0, 0⟩, "A"⟩, ⟨9, ⟨7, 7⟩, "Z"⟩] : List TPt).filter
          (fun p => decide (p.oa ∈ ["A"]))
        = ([⟨1, ⟨0, 0⟩, "A"⟩] : List TPt).filter
          (fun p => decide (p.oa ∈ ["A"])) from by decide])

theorem flatMap_append_perm {l : List α} (f g : α → List β) :
    (l.flatMap (fun a => f a ++ g a)).Perm (l.flatMap f ++ l.flatMap g) := by
  induction l with
  | nil => simp
  | cons a l ih =>
    simp only [List.flatMap_cons]
    refine ((ih.append_left (f a ++ g a)).trans ?_)
    rw [List.append_assoc, List.append_assoc]
    exact (List.perm_append_comm_assoc _ _ _).append_left (f a)

/-- C8: processing the polygon set in sequential batches and concatenating
the per-batch joins yields the same point-in-polygon result set (as a
multiset of output rows, i.e. up to ordering) as the join over the whole
polygon set in one pass. -/
theorem sjoin_batches_perm (W : Pt → G → Bool) (pts : List UPt)
    (batches : List (List (String × G))) :
    ((batches.map (fun b => sjoin W pts b)).flatten).Perm
      (sjoin W pts batches.flatten) := by
  induction batches with
  | nil => simp [sjoin]
  | cons b bs ih =>
    simp only [List.map_cons, List.flatten_cons]
    have hsplit : sjoin W pts (b ++ bs.flatten)
        = pts.flatMap (fun p =>
            ((b.filter (fun q => W p.pt q.2)).map (fun q => (p, q.1)))
            ++ (((bs.flatten).filter (fun q => W p.pt q.2)).map
                (fun q => (p, q.1)))) := by
      rw [sjoin]
      simp only [List.filter_append, List.map_append]
    rw [hsplit]
    exact (ih.append_left _).trans (flatMap_append_perm _ _).symm

/-- C3: the spatial join returns exactly the points contained in some
polygon, paired with the containing polygon's identifier; a point in no
polygon produces no output row; and if no point lies within two polygons
carrying distinct identifiers (non-overlapping polygon sets), then no
point is paired with two distinct identifiers. -/
theorem sjoin_mem_charact (W : Pt → G → Bool) (pts : List UPt)
    (polys : List (String × G)) :
    (∀ p c, ((p, c) ∈ sjoin W pts polys ↔
      p ∈ pts ∧ ∃ g, (c, g) ∈ polys ∧ W p.pt g = true)) ∧
    ((∀ x : Pt, ∀ q1 ∈ polys, ∀ q2 ∈ polys,
        W x q1.2 = true → W x q2.2 = true → q1.1 = q2.1) →
      ∀ p c1 c2, (p, c1) ∈ sjoin W pts polys → (p, c2) ∈ sjoin W pts polys →
        c1 = c2) := by
  have hmem : ∀ p c, ((p, c) ∈ sjoin W pts polys ↔
      p ∈ pts ∧ ∃ g, (c, g) ∈ polys ∧ W p.pt g = true) := by
    intro p c
    rw [sjoin]
    simp only [List.mem_flatMap, List.mem_map, List.mem_filter, Prod.mk.injEq]
    constructor
    · rintro ⟨a, ha, q, ⟨hq, hw⟩, rfl, rfl⟩
      exact ⟨ha, q.2, by simpa using hq, hw⟩
    · rintro ⟨hp, g, hg, hw⟩
      exact ⟨p, hp, (c, g), ⟨hg, hw⟩, rfl, rfl⟩
  refine ⟨hmem, ?_⟩
  intro hnov p c1 c2 h1 h2
  obtain ⟨hp, g1, hg1, hw1⟩ := (hmem p c1).mp h1
  obtain ⟨-, g2, hg2, hw2⟩ := (hmem p c2).mp h2
  exact hnov p.pt (c1, g1) hg1 (c2, g2) hg2 hw1 hw2

/-- C3 witness: one point lying inside the first of two separated boxes is
returned with that box's identifier, and the functionality conclusion
applies since no point lies in both boxes. -/
theorem sjoin_mem_charact_witness :
    ((⟨1, ⟨1, 1⟩⟩ : UPt), "A") ∈ sjoin boxWithin [⟨1, ⟨1, 1⟩⟩]
        [("A", ⟨0, 2, 0, 2⟩), ("B", ⟨4, 6, 0, 2⟩)] ∧ "A" = "A" := by
  have h := sjoin_mem_charact boxWithin [(⟨1, ⟨1, 1⟩⟩ : UPt)]
    [("A", (⟨0, 2, 0, 2⟩ : Box)), ("B", ⟨4, 6, 0, 2⟩)]
  have hnov : ∀ x : Pt, ∀ q1 ∈ [("A", (⟨0, 2, 0, 2⟩ : Box)), ("B", ⟨4, 6, 0, 2⟩)],
      ∀ q2 ∈ [("A", (⟨0, 2, 0, 2⟩ : Box)), ("B", ⟨4, 6, 0, 2⟩)],
      boxWithin x q1.2 = true → boxWithin x q2.2 = true → q1.1 = q2.1 := by
    intro x q1 hq1 q2 hq2 hw1 hw2
    fin_cases hq1 <;> fin_cases hq2 <;>
      first
        | rfl
        | (simp only [boxWithin, Box.containsPt, decide_eq_true_eq] at hw1 hw2
           linarith [hw1.1, hw1.2.1, hw2.1, hw2.2.1])
  have hmem : ((⟨1, ⟨1, 1⟩⟩ : UPt), "A") ∈ sjoin boxWithin [⟨1, ⟨1, 1⟩⟩]
      [("A", ⟨0, 2, 0, 2⟩), ("B", ⟨4, 6, 0, 2⟩)] :=
    (h.1 _ _).mpr ⟨by decide, ⟨0, 2, 0, 2⟩, by decide, by decide⟩
  exact ⟨hmem, h.2 hnov _ _ _ hmem hmem⟩

theorem queryNN_second_of_three [LinearOrder α] [DecidableEq α] {a b : α}
    (h : b < a) : queryNN [a, b, a] = some a := by
  have hne : (a == b) = false := beq_eq_false_iff_ne.mpr (ne_of_gt h)
  have hmin : minList [a, b, a] = some b := by
    simp only [minList]
    rw [min_eq_left h.le, min_eq_right h.le]
  rw [queryNN, hmin]
  simp only [List.erase_cons, hne, beq_self_eq_true]
  simp [minList, min_self]

/-- C7: end-to-end scenario.  Three squares in a row sharing edges, one
point at a known coordinate inside each; composing the adjacency builder,
the point-in-polygon join and the oa_nn loop (with the Euclidean distance
the tree uses) records for the middle unit the mean nearest-neighbour
distance 2, which equals the Euclidean distance from the middle point to
the closest point in either adjoining square. -/
theorem end_to_end_middle_unit :
    (oa_nn euclid (neighbours Box.disjointB gridEE) taggedEE).lookup "B"
      = some (MeanNN.val 2) ∧
    euclid ⟨3, 1⟩ ⟨1, 1⟩ = 2 ∧ euclid ⟨3, 1⟩ ⟨5, 1⟩ = 2 := by
  have he1 : euclid ⟨3, 1⟩ ⟨1, 1⟩ = 2 := by
    simp only [euclid]
    norm_num
    rw [show (4:ℝ) = 2 ^ 2 by norm_num]
    exact Real.sqrt_sq (by norm_num)
  have he2 : euclid ⟨3, 1⟩ ⟨5, 1⟩ = 2 := by
    simp only [euclid]
    norm_num
    rw [show (4:ℝ) = 2 ^ 2 by norm_num]
    exact Real.sqrt_sq (by norm_num)
  have he0 : euclid ⟨3, 1⟩ ⟨3, 1⟩ = 0 := euclid_self _
  refine ⟨?_, he1, he2⟩
  rw [show neighbours Box.disjointB gridEE
      = [("A", ["A", "B"]), ("B", ["A", "B", "C"]), ("C", ["B", "C"])] from by decide]
  rw [show taggedEE = [⟨1, ⟨1, 1⟩, "A"⟩, ⟨2, ⟨3, 1⟩, "B"⟩, ⟨3, ⟨5, 1⟩, "C"⟩]
      from by decide]
  simp only [oa_nn, List.map_cons, List.map_nil]
  have hb : oaStat euclid [⟨1, ⟨1, 1⟩, "A"⟩, ⟨2, ⟨3, 1⟩, "B"⟩, ⟨3, ⟨5, 1⟩, "C"⟩]
      "B" ["A", "B", "C"] = MeanNN.val 2 := by
    simp only [oaStat]
    rw [show List.filter (fun p => decide (p.oa = "B"))
        [(⟨1, ⟨1, 1⟩, "A"⟩ : TPt), ⟨2, ⟨3, 1⟩, "B"⟩, ⟨3, ⟨5, 1⟩, "C"⟩]
        = [⟨2, ⟨3, 1⟩, "B"⟩] from by decide]
    rw [show List.filter (fun p => decide (p.oa ∈ ["A", "B", "C"]))
        [(⟨1, ⟨1, 1⟩, "A"⟩ : TPt), ⟨2, ⟨3, 1⟩, "B"⟩, ⟨3, ⟨5, 1⟩, "C"⟩]
        = [⟨1, ⟨1, 1⟩, "A"⟩, ⟨2, ⟨3, 1⟩, "B"⟩, ⟨3, ⟨5, 1⟩, "C"⟩] from by decide]
    simp only [List.map_cons, List.map_nil]
    rw [he1, he0, he2]
    rw [queryNN_second_of_three (by norm_num : (0:ℝ) < 2)]
    rw [meanDists]
    rw [if_neg (by simp), if_neg (by simp)]
    rw [show (List.filterMap id [some (2:ℝ)]) = [2] from rfl]
    norm_num
  rw [hb]
  simp [List.lookup]
